import Mathlib

/-!
Verification of the transifex.yaml conversion core (`src/transifex/yaml_file.rs`
of deepin-translation-utils): the `<lang>` filename pattern matcher, the
directory discovery loop, the `.tx`-config translator, and the file-loading
entry points.  Strings are embedded as `List Char` (the files involved are
UTF-8; the one place a non-UTF-8 name can appear is modelled explicitly by
`DirItem.nonUtf8`).
-/

set_option autoImplicit false

namespace TxYaml

/-- The language placeholder token `<lang>` that `create_filter_pattern`
splits its template on. -/
def langToken : List Char := ['<', 'l', 'a', 'n', 'g', '>']

/-- One step of Rust `str::split` with a non-empty pattern: locate the
leftmost occurrence of `tok`, returning the text before it and the text
after it, or `none` when `tok` does not occur at all. -/
def splitFirst (tok : List Char) : List Char → Option (List Char × List Char)
  | [] => none
  | c :: rest =>
    match tok.isPrefixOf (c :: rest) with
    | true => some ([], (c :: rest).drop tok.length)
    | false =>
      match splitFirst tok rest with
      | some pr => some (c :: pr.1, pr.2)
      | none => none

/-- Number of positions of `s` at which the (non-empty) token `tok` occurs;
used to state "the template contains `<lang>` exactly once". -/
def countOcc (tok : List Char) : List Char → Nat
  | [] => 0
  | c :: rest =>
    match tok.isPrefixOf (c :: rest) with
    | true => 1 + countOcc tok rest
    | false => countOcc tok rest

/-- Embedding of `create_filter_pattern` (yaml_file.rs:152-165).  Rust splits
the template on `"<lang>"` and requires exactly two parts, i.e. exactly one
occurrence; both parts are then regex-escaped into the anchored pattern
`^pre([a-z_A-Z]{2,6})suf$`.  Because the two literal parts are escaped, the
compiled regex is fully described by the pair `(pre, suf)`, which is what we
return; `Regex::new` cannot fail on an escaped-literal pattern. -/
def create_filter_pattern (pattern : List Char) : Option (List Char × List Char) :=
  match splitFirst langToken pattern with
  | none => none
  | some (pre, post) =>
    match splitFirst langToken post with
    | some _ => none
    | none => some (pre, post)

/-- Characters admitted by the regex character class `[a-z_A-Z]`. -/
def isLangChar (c : Char) : Bool :=
  decide ('a' ≤ c ∧ c ≤ 'z') || c == '_' || decide ('A' ≤ c ∧ c ≤ 'Z')

/-- Semantics of `pattern.captures(s).get(1)` for the anchored regex
`^pre([a-z_A-Z]{2,6})suf$` with regex-escaped literals `pre` and `suf`:
`s` matches exactly when it decomposes as `pre ++ code ++ suf` with
`2 ≤ code.length ≤ 6` and every character of `code` in the class, and the
decomposition is unique (its length is forced), so group 1 is exactly the
middle segment. -/
def regexCapture (pre suf s : List Char) : Option (List Char) :=
  if pre.isPrefixOf s ∧ suf.isSuffixOf s
      ∧ 2 ≤ ((s.drop pre.length).take (s.length - pre.length - suf.length)).length
      ∧ ((s.drop pre.length).take (s.length - pre.length - suf.length)).length ≤ 6
      ∧ ((s.drop pre.length).take (s.length - pre.length - suf.length)).all isLangChar then
    some ((s.drop pre.length).take (s.length - pre.length - suf.length))
  else none

/-- Substitution of a concrete code for the `<lang>` placeholder of a
template (replaces the first occurrence; identity when absent). -/
def replaceLang (tf code : List Char) : List Char :=
  match splitFirst langToken tf with
  | some pr => pr.1 ++ code ++ pr.2
  | none => tf

/-! ### Path model

Paths are `List Char`.  `pathJoin` models `PathBuf::join` for the case
exercised by the code (a relative right-hand side appended to a base without
trailing separator); `fileName` and `parentDir` model `Path::file_name` and
`Path::parent` for ordinary paths whose last component is a plain name. -/

/-- Model of `PathBuf::join` for a relative argument. -/
def pathJoin (base rel : List Char) : List Char := base ++ '/' :: rel

/-- Model of `Path::file_name`: the component after the last separator;
`none` when that component is empty or a current/parent-directory marker. -/
def fileName (p : List Char) : Option (List Char) :=
  if (p.reverse.takeWhile (fun c => c != '/')).reverse = []
      ∨ (p.reverse.takeWhile (fun c => c != '/')).reverse = ['.']
      ∨ (p.reverse.takeWhile (fun c => c != '/')).reverse = ['.', '.'] then none
  else some (p.reverse.takeWhile (fun c => c != '/')).reverse

/-- Model of `Path::parent`: everything before the last separator; `none`
when the path has no separator. -/
def parentDir (p : List Char) : Option (List Char) :=
  match p.reverse.drop ((p.reverse.takeWhile (fun c => c != '/')).length) with
  | [] => none
  | _ :: restSep => some restSep.reverse

/-! ### Directory discovery -/

/-- One result of the `read_dir` iterator inside `Filter::match_target_files`:
an entry that errors when read (`file?` in the Rust loop), an entry whose
`OsString` name is not valid UTF-8 (`to_str` returns `None`), or an ordinary
named entry. -/
inductive DirItem where
  | unreadable : DirItem
  | nonUtf8 : DirItem
  | entry (name : List Char) : DirItem
deriving DecidableEq

/-- Embedding of the scan loop of `Filter::match_target_files`
(yaml_file.rs:93-105): an unreadable item makes the whole loop fail
(`let file = file?`), a non-UTF-8 name is skipped (`continue`), and a named
entry contributes `(capture group 1, parent.join(name))` when the compiled
pattern matches.  `parent ++ '/' :: name` models `DirEntry::path()`. -/
def matchEntries (pre suf parent : List Char) :
    List DirItem → Except Unit (List (List Char × List Char))
  | [] => .ok []
  | .unreadable :: _ => .error ()
  | .nonUtf8 :: rest => matchEntries pre suf parent rest
  | .entry name :: rest =>
    match regexCapture pre suf name with
    | none => matchEntries pre suf parent rest
    | some code =>
      match matchEntries pre suf parent rest with
      | .ok pairs => .ok ((code, parent ++ '/' :: name) :: pairs)
      | .error e => .error e

/-- Whether a directory item is a named entry accepted by the compiled
pattern `(pre, suf)`. -/
def itemAccepted (pre suf : List Char) : DirItem → Bool
  | .entry name => (regexCapture pre suf name).isSome
  | _ => false

/-- Embedding of `Filter::match_target_files` (yaml_file.rs:77-107) for its
one filter-dependent input, the `translation_files_expression` template.
`listing` is the (successfully obtained) `read_dir` sequence of the parent
directory; the distinct `io::Error` messages of the early-return branches are
all `ErrorKind::Other` and are collapsed into `Unit`. -/
def match_target_files (target_pattern project_root : List Char)
    (listing : List DirItem) : Except Unit (List (List Char × List Char)) :=
  let target_pattern_path := pathJoin project_root target_pattern
  match fileName target_pattern_path with
  | none => .error ()
  | some target_filename_pattern =>
    match create_filter_pattern target_filename_pattern with
    | none => .error ()
    | some (pre, suf) =>
      match parentDir target_pattern_path with
      | none => .error ()
      | some parent => matchEntries pre suf parent listing

/-! ### Data model of the source and destination configurations -/

/-- The `settings` block of transifex.yaml (`pr_branch_name`). -/
structure Settings where
  branch_template : List Char
deriving DecidableEq

/-- One filter rule of transifex.yaml (field names as in the Rust struct;
serde renames map them to `filter_type`, `source_file`, `file_format`,
`source_language`, `translation_files_expression`). -/
structure Filter where
  type_attr : List Char
  source : List Char
  format : List Char
  source_lang : List Char
  target_pattern : List Char
deriving DecidableEq

/-- A parsed transifex.yaml document. -/
structure TransifexYaml where
  filters : List Filter
  settings : Settings
deriving DecidableEq

/-- One row of the externally supplied resource lookup table. -/
structure TxResourceLookupEntry where
  repository : List Char
  branch : List Char
  resource : List Char
  transifex_resource_id : List Char
deriving DecidableEq

/-- Modelled from the spec: the main section of the destination `.tx/config`
structure.  `tx_config_file.rs` is not among the analyzed sources; the spec
describes the consumed shape as a fixed host endpoint plus structural
defaults, and only `host` is written by the translator. -/
structure TxConfigSectionMain where
  host : List Char := []
deriving DecidableEq

/-- Modelled from the spec: one resource section of the destination config,
`{source_file, source_lang, type, file_filter, resource_full_slug}` with
structural (empty-string) defaults.  `tx_config_file.rs` is not among the
analyzed sources. -/
structure TxConfigSectionResource where
  source_file : List Char := []
  source_lang : List Char := []
  type_attr : List Char := []
  file_filter : List Char := []
  resource_full_slug : List Char := []
deriving DecidableEq

/-- Modelled from the spec: the destination config, a main section plus the
ordered resource sections.  `tx_config_file.rs` is not among the analyzed
sources. -/
structure TxConfig where
  main_section : TxConfigSectionMain
  resource_sections : List TxConfigSectionResource
deriving DecidableEq

/-- The sentinel identifier produced by
`format!("o:{}:p:{}:r:{}", "unknown-org", "unknown-proj", "unknown-res")`. -/
def sentinelSlug : List Char := "o:unknown-org:p:unknown-proj:r:unknown-res".data

/-- Embedding of `TransifexYaml::to_tx_config` (yaml_file.rs:32-59).  The
imperative accumulation loop over `self.filters` is written as a `map`;
`lookup_table.iter().find(..)` is `List.find?` with the same predicate. -/
def to_tx_config (self : TransifexYaml) (github_repository : List Char)
    (lookup_table : List TxResourceLookupEntry) : TxConfig :=
  { main_section := { host := "https://www.transifex.com".data }
    resource_sections := self.filters.map fun filter =>
      { source_file := filter.source
        source_lang := filter.source_lang
        type_attr := filter.format
        file_filter := filter.target_pattern
        resource_full_slug :=
          match lookup_table.find? (fun entry =>
              entry.repository == github_repository && entry.resource == filter.source) with
          | some entry => entry.transifex_resource_id
          | none => sentinelSlug } }

/-- Spec-side identifier resolution, written from the spec's words: scan the
lookup table in order for the first entry whose repository and resource both
match; copy its identifier verbatim, else the fixed sentinel.  It is compared
against the `find?`-based resolution inside `to_tx_config`. -/
def specResolveIdentifier (repository_id source_file_path : List Char) :
    List TxResourceLookupEntry → List Char
  | [] => sentinelSlug
  | entry :: rest =>
    if entry.repository = repository_id ∧ entry.resource = source_file_path then
      entry.transifex_resource_id
    else specResolveIdentifier repository_id source_file_path rest

/-! ### File loading -/

/-- The error enum `TxYamlLoadError` (yaml_file.rs:116-126). -/
inductive TxYamlLoadError where
  | FileNotFound
  | ReadFile
  | Serde
  | ConvertError
deriving DecidableEq

/-- Embedding of `load_tx_yaml_file` (yaml_file.rs:144-150).  The filesystem
is abstracted by `is_file` (`Path::is_file`) and `read_to_string`
(`fs::read_to_string`, whose `io::Error` becomes `ReadFile` via `#[from]`);
`from_str` models `serde_yml::from_str`, whose error becomes `Serde`. -/
def load_tx_yaml_file (is_file : List Char → Bool)
    (read_to_string : List Char → Except Unit (List Char))
    (from_str : List Char → Except Unit TransifexYaml)
    (transifex_yaml_file : List Char) : Except TxYamlLoadError TransifexYaml :=
  if is_file transifex_yaml_file then
    match read_to_string transifex_yaml_file with
    | .error _ => .error .ReadFile
    | .ok source_content =>
      match from_str source_content with
      | .error _ => .error .Serde
      | .ok y => .ok y
  else .error .FileNotFound

/-- Embedding of `try_laod_transifex_yaml_file` (yaml_file.rs:128-142):
try `<root>/transifex.yaml`, then `<root>/.tx/transifex.yaml`, else
`FileNotFound`; an existing candidate is loaded with `load_tx_yaml_file`,
whose error propagates unchanged (`?`). -/
def try_laod_transifex_yaml_file (is_file : List Char → Bool)
    (read_to_string : List Char → Except Unit (List Char))
    (from_str : List Char → Except Unit TransifexYaml)
    (project_root : List Char) : Except TxYamlLoadError (List Char × TransifexYaml) :=
  let f1 := pathJoin project_root "transifex.yaml".data
  if is_file f1 then
    match load_tx_yaml_file is_file read_to_string from_str f1 with
    | .error e => .error e
    | .ok y => .ok (f1, y)
  else
    let f2 := pathJoin (pathJoin project_root ".tx".data) "transifex.yaml".data
    if is_file f2 then
      match load_tx_yaml_file is_file read_to_string from_str f2 with
      | .error e => .error e
      | .ok y => .ok (f2, y)
    else .error .FileNotFound

/-- Concrete filter used to instantiate universally quantified theorems
(the spec's running example `app/foo.ts` / `app/foo_<lang>.ts`). -/
def exFilter : Filter :=
  ⟨"file".data, "app/foo.ts".data, "QT".data, "en_US".data, "app/foo_<lang>.ts".data⟩

/-- Concrete settings block for instantiations. -/
def exSettings : Settings := ⟨"transifex_update_<br_unique_id>".data⟩

/-- Concrete one-filter document for instantiations. -/
def exYaml : TransifexYaml := ⟨[exFilter], exSettings⟩

/-- Concrete lookup entry (the spec's example row). -/
def exEntry : TxResourceLookupEntry :=
  ⟨"org/repo".data, "main".data, "app/foo.ts".data, "o:x:p:y:r:z".data⟩

/-! ### Sanity checks on concrete inputs -/

example : create_filter_pattern "foo_<lang>.ts".data = some ("foo_".data, ".ts".data) := by decide

example : create_filter_pattern "foo.ts".data = none := by decide

example : create_filter_pattern "a<lang>b<lang>c".data = none := by decide

example : regexCapture "foo_".data ".ts".data "foo_zh_CN.ts".data = some "zh_CN".data := by decide

example : regexCapture "foo_".data ".ts".data "foo_z.ts".data = none := by decide

example : countOcc langToken "foo_<lang>.ts".data = 1 := by decide

example : fileName "/proj/app/foo_<lang>.ts".data = some "foo_<lang>.ts".data := by decide

example : parentDir "/proj/app/foo_<lang>.ts".data = some "/proj/app".data := by decide

example :
    match_target_files "app/foo_<lang>.ts".data "/proj".data
      [DirItem.entry "foo_en.ts".data, DirItem.entry "foo_zh_CN.ts".data,
        DirItem.entry "readme.md".data]
    = .ok [("en".data, "/proj/app/foo_en.ts".data),
        ("zh_CN".data, "/proj/app/foo_zh_CN.ts".data)] := by rfl

/-! ### Lemmas about the pattern matcher -/

theorem countOcc_token_append (post : List Char) :
    countOcc langToken (langToken ++ post) = 1 + countOcc langToken post := by
  show countOcc langToken ('<' :: 'l' :: 'a' :: 'n' :: 'g' :: '>' :: post) = _
  simp [countOcc, langToken, List.isPrefixOf]

theorem splitFirst_eq_none_iff (tok s : List Char) :
    splitFirst tok s = none ↔ countOcc tok s = 0 := by
  induction s with
  | nil => simp [splitFirst, countOcc]
  | cons c rest ih =>
    cases hp : tok.isPrefixOf (c :: rest) with
    | true => simp [splitFirst, countOcc, hp]
    | false =>
      simp only [splitFirst, countOcc, hp]
      cases hsf : splitFirst tok rest with
      | none => simpa [hsf] using ih
      | some pr =>
        simp only [reduceCtorEq, false_iff]
        intro h
        have := ih.mpr h
        rw [hsf] at this
        cases this

theorem eq_append_drop_of_isPrefixOf {tok s : List Char}
    (h : tok.isPrefixOf s = true) : s = tok ++ s.drop tok.length := by
  obtain ⟨t, ht⟩ := List.isPrefixOf_iff_prefix.mp h
  subst ht
  rw [List.drop_left]

theorem splitFirst_langToken_some {s pre post : List Char}
    (h : splitFirst langToken s = some (pre, post)) :
    s = pre ++ langToken ++ post
      ∧ countOcc langToken s = 1 + countOcc langToken post := by
  induction s generalizing pre with
  | nil => simp [splitFirst] at h
  | cons c rest ih =>
    cases hp : langToken.isPrefixOf (c :: rest) with
    | true =>
      simp only [splitFirst, hp] at h
      have hdecomp : c :: rest = langToken ++ (c :: rest).drop langToken.length :=
        eq_append_drop_of_isPrefixOf hp
      cases h
      refine ⟨by simpa using hdecomp, ?_⟩
      rw [show countOcc langToken (c :: rest)
            = countOcc langToken (langToken ++ (c :: rest).drop langToken.length) from by
          rw [← hdecomp]]
      exact countOcc_token_append _
    | false =>
      simp only [splitFirst, hp] at h
      cases hsf : splitFirst langToken rest with
      | none => rw [hsf] at h; cases h
      | some pr =>
        rw [hsf] at h
        cases h
        obtain ⟨hdec, hcnt⟩ := @ih pr.1 (by rw [hsf])
        constructor
        · simpa using congrArg (c :: ·) hdec
        · simp only [countOcc, hp]
          exact hcnt

theorem create_filter_pattern_eq_some {tf pre suf : List Char} :
    create_filter_pattern tf = some (pre, suf)
      ↔ splitFirst langToken tf = some (pre, suf) ∧ splitFirst langToken suf = none := by
  unfold create_filter_pattern
  cases h1 : splitFirst langToken tf with
  | none => simp
  | some pr =>
    obtain ⟨p1, p2⟩ := pr
    cases h2 : splitFirst langToken p2 with
    | none =>
      simp only [h2]
      constructor
      · intro h; cases h; exact ⟨rfl, h2⟩
      · intro ⟨ha, _⟩
        cases ha
        rfl
    | some q =>
      simp only [h2]
      constructor
      · intro h; cases h
      · intro ⟨ha, hb⟩
        cases ha
        rw [h2] at hb
        cases hb

theorem capture_take_eq (pre suf code : List Char) :
    ((pre ++ code ++ suf).drop pre.length).take
        ((pre ++ code ++ suf).length - pre.length - suf.length) = code := by
  rw [List.append_assoc, List.drop_left]
  have h : (pre ++ (code ++ suf)).length - pre.length - suf.length = code.length := by
    simp only [List.length_append]
    omega
  rw [h]
  exact List.take_left _ _

theorem regexCapture_subst {pre suf code : List Char}
    (h2 : 2 ≤ code.length) (h6 : code.length ≤ 6) (hall : code.all isLangChar = true) :
    regexCapture pre suf (pre ++ code ++ suf) = some code := by
  have hpre : pre.isPrefixOf (pre ++ code ++ suf) = true :=
    List.isPrefixOf_iff_prefix.mpr ⟨code ++ suf, by rw [List.append_assoc]⟩
  have hsuf : suf.isSuffixOf (pre ++ code ++ suf) = true :=
    List.isSuffixOf_iff_suffix.mpr ⟨pre ++ code, rfl⟩
  simp only [regexCapture, capture_take_eq]
  rw [if_pos ⟨hpre, hsuf, h2, h6, hall⟩]

theorem regexCapture_subst_invalid {pre suf code : List Char}
    (h : code.length < 2 ∨ 6 < code.length ∨ code.all isLangChar = false) :
    regexCapture pre suf (pre ++ code ++ suf) = none := by
  simp only [regexCapture, capture_take_eq]
  rw [if_neg]
  intro ⟨_, _, h2, h6, hall⟩
  rcases h with h | h | h
  · omega
  · omega
  · rw [hall] at h; cases h

theorem regexCapture_eq_some {pre suf s code : List Char}
    (h : regexCapture pre suf s = some code) :
    s = pre ++ code ++ suf ∧ 2 ≤ code.length ∧ code.length ≤ 6
      ∧ code.all isLangChar = true := by
  unfold regexCapture at h
  split at h
  case isTrue hc =>
    obtain ⟨hpre, hsuf, h2, h6, hall⟩ := hc
    cases h
    refine ⟨?_, h2, h6, hall⟩
    obtain ⟨u, hu⟩ := List.isPrefixOf_iff_prefix.mp hpre
    obtain ⟨t, ht⟩ := List.isSuffixOf_iff_suffix.mp hsuf
    subst hu
    have hdrop : (pre ++ u).drop pre.length = u := List.drop_left _ _
    have harg : (pre ++ u).length - pre.length - suf.length = u.length - suf.length := by
      simp only [List.length_append]
      omega
    rw [hdrop, harg] at h2 ⊢
    rw [List.length_take] at h2
    have hq : suf.length + 2 ≤ u.length := by omega
    have hlt : t.length = pre.length + (u.length - suf.length) := by
      have := congrArg List.length ht
      simp only [List.length_append] at this
      omega
    have hdropu : u.drop (u.length - suf.length) = suf := by
      calc u.drop (u.length - suf.length)
          = ((pre ++ u).drop pre.length).drop (u.length - suf.length) := by rw [hdrop]
        _ = (pre ++ u).drop (pre.length + (u.length - suf.length)) := List.drop_drop ..
        _ = (pre ++ u).drop t.length := by rw [hlt]
        _ = (t ++ suf).drop t.length := by rw [ht]
        _ = suf := List.drop_left _ _
    conv_lhs => rw [← List.take_append_drop (u.length - suf.length) u]
    rw [hdropu, List.append_assoc]
  case isFalse => cases h

/-! ### Lemmas about the discovery loop -/

theorem matchEntries_error_iff (pre suf parent : List Char) (listing : List DirItem) :
    matchEntries pre suf parent listing = .error () ↔ DirItem.unreadable ∈ listing := by
  induction listing with
  | nil => simp [matchEntries]
  | cons item rest ih =>
    cases item with
    | unreadable => simp [matchEntries]
    | nonUtf8 => simpa [matchEntries] using ih
    | entry name =>
      cases hc : regexCapture pre suf name with
      | none => simpa [matchEntries, hc] using ih
      | some code =>
        simp only [matchEntries, hc, List.mem_cons, reduceCtorEq, false_or]
        cases hm : matchEntries pre suf parent rest with
        | ok pairs =>
          simp only [reduceCtorEq, false_iff]
          intro hmem
          have := ih.mpr hmem
          rw [hm] at this
          cases this
        | error e =>
          cases e
          simpa [hm] using ih

theorem matchEntries_skip_nonUtf8 (pre suf parent : List Char) (l1 l2 : List DirItem) :
    matchEntries pre suf parent (l1 ++ DirItem.nonUtf8 :: l2)
      = matchEntries pre suf parent (l1 ++ l2) := by
  induction l1 with
  | nil => simp [matchEntries]
  | cons item rest ih =>
    cases item with
    | unreadable => simp [matchEntries]
    | nonUtf8 => simpa [matchEntries] using ih
    | entry name =>
      cases hc : regexCapture pre suf name with
      | none => simpa [matchEntries, hc] using ih
      | some code => simp [matchEntries, hc, ih]

theorem matchEntries_ok_of_no_unreadable (pre suf parent : List Char)
    (listing : List DirItem) (h : DirItem.unreadable ∉ listing) :
    ∃ pairs, matchEntries pre suf parent listing = .ok pairs
      ∧ pairs.length = listing.countP (itemAccepted pre suf) := by
  induction listing with
  | nil => exact ⟨[], rfl, rfl⟩
  | cons item rest ih =>
    have hrest : DirItem.unreadable ∉ rest := fun hm => h (List.mem_cons_of_mem _ hm)
    obtain ⟨pairs, hok, hlen⟩ := ih hrest
    cases item with
    | unreadable => exact absurd (List.mem_cons_self _ _) h
    | nonUtf8 =>
      exact ⟨pairs, by simpa [matchEntries] using hok,
        by simpa [List.countP_cons, itemAccepted] using hlen⟩
    | entry name =>
      cases hc : regexCapture pre suf name with
      | none =>
        refine ⟨pairs, by simpa [matchEntries, hc] using hok, ?_⟩
        simpa [List.countP_cons, itemAccepted, hc] using hlen
      | some code =>
        refine ⟨(code, parent ++ '/' :: name) :: pairs, ?_, ?_⟩
        · simp [matchEntries, hc, hok]
        · simp [List.countP_cons, itemAccepted, hc, hlen]

theorem matchEntries_ok_mem {pre suf parent : List Char} {listing : List DirItem}
    {pairs : List (List Char × List Char)}
    (h : matchEntries pre suf parent listing = .ok pairs) :
    ∀ cp ∈ pairs, ∃ name, DirItem.entry name ∈ listing
      ∧ regexCapture pre suf name = some cp.1 ∧ cp.2 = parent ++ '/' :: name := by
  induction listing generalizing pairs with
  | nil =>
    cases h
    intro cp hcp
    cases hcp
  | cons item rest ih =>
    cases item with
    | unreadable => cases h
    | nonUtf8 =>
      intro cp hcp
      obtain ⟨name, hmem, hcap, hpath⟩ := ih (by simpa [matchEntries] using h) cp hcp
      exact ⟨name, List.mem_cons_of_mem _ hmem, hcap, hpath⟩
    | entry name =>
      cases hc : regexCapture pre suf name with
      | none =>
        intro cp hcp
        obtain ⟨nm, hmem, hcap, hpath⟩ := ih (by simpa [matchEntries, hc] using h) cp hcp
        exact ⟨nm, List.mem_cons_of_mem _ hmem, hcap, hpath⟩
      | some code =>
        simp only [matchEntries, hc] at h
        cases hm : matchEntries pre suf parent rest with
        | error e => rw [hm] at h; cases h
        | ok ps =>
          rw [hm] at h
          cases h
          intro cp hcp
          rcases List.mem_cons.mp hcp with hhd | htl
          · subst hhd
            exact ⟨name, List.mem_cons_self _ _, hc, rfl⟩
          · obtain ⟨nm, hmem, hcap, hpath⟩ := ih hm cp htl
            exact ⟨nm, List.mem_cons_of_mem _ hmem, hcap, hpath⟩

/-! ### Lemmas about the path model -/

theorem takeWhile_append_of_sat {α : Type} (p : α → Bool) (l1 : List α) (x : α)
    (l2 : List α) (h : ∀ a ∈ l1, p a = true) (hx : p x = false) :
    (l1 ++ x :: l2).takeWhile p = l1 := by
  induction l1 with
  | nil => simp [List.takeWhile_cons, hx]
  | cons a rest ih =>
    have ha : p a = true := h a (List.mem_cons_self _ _)
    simp [List.takeWhile_cons, ha, ih fun b hb => h b (List.mem_cons_of_mem _ hb)]

theorem fileName_eq_some {p comp : List Char} (h : fileName p = some comp) :
    comp ≠ [] ∧ ∀ c ∈ comp, c ≠ '/' := by
  unfold fileName at h
  split at h
  · cases h
  case isFalse hcond =>
    cases h
    refine ⟨fun hnil => hcond (Or.inl hnil), fun c hc hsl => ?_⟩
    have : c ∈ p.reverse.takeWhile (fun c => c != '/') := List.mem_reverse.mp hc
    have := List.mem_takeWhile_imp this
    rw [hsl] at this
    simp at this

theorem fileName_parent_append {parent name : List Char} (hne : name ≠ [])
    (hsl : ∀ c ∈ name, c ≠ '/') (h1 : name ≠ ['.']) (h2 : name ≠ ['.', '.']) :
    fileName (parent ++ '/' :: name) = some name := by
  unfold fileName
  have hrev : (parent ++ '/' :: name).reverse = name.reverse ++ '/' :: parent.reverse := by
    simp
  rw [hrev, takeWhile_append_of_sat _ _ _ _
    (fun a ha => by simpa using hsl a (List.mem_reverse.mp ha)) (by simp)]
  rw [List.reverse_reverse]
  rw [if_neg]
  push_neg
  exact ⟨hne, h1, h2⟩

/-! ### Lemmas about identifier resolution -/

theorem find?_eq_specResolve (repo src : List Char) (table : List TxResourceLookupEntry) :
    (match table.find? (fun entry =>
        entry.repository == repo && entry.resource == src) with
      | some entry => entry.transifex_resource_id
      | none => sentinelSlug) = specResolveIdentifier repo src table := by
  induction table with
  | nil => rfl
  | cons e rest ih =>
    by_cases h : e.repository = repo ∧ e.resource = src
    · have hb : (e.repository == repo && e.resource == src) = true := by
        simp [h.1, h.2]
      simp [List.find?_cons, hb, specResolveIdentifier, h]
    · have hb : (e.repository == repo && e.resource == src) = false := by
        rw [Bool.and_eq_false_iff]
        by_cases h1 : e.repository = repo
        · exact Or.inr (by simp [beq_eq_false_iff_ne]; exact fun h2 => h ⟨h1, h2⟩)
        · exact Or.inl (by simp [beq_eq_false_iff_ne, h1])
      simp only [List.find?_cons, hb, specResolveIdentifier, if_neg h]
      exact ih

/-! ### Claim theorems -/

/-- C2: for every template string, `create_filter_pattern` succeeds (returns
a matcher) if and only if the template contains the placeholder token
`<lang>` exactly once; with zero or more than one occurrence it returns
`none` (the Rust caller maps this to its pattern-compile failure). -/
theorem c2_compile_iff_single_placeholder (tf : List Char) :
    (∃ pr, create_filter_pattern tf = some pr) ↔ countOcc langToken tf = 1 := by
  constructor
  · intro ⟨⟨pre, suf⟩, hc⟩
    obtain ⟨hs, hn⟩ := create_filter_pattern_eq_some.mp hc
    obtain ⟨_, hcnt⟩ := splitFirst_langToken_some hs
    rw [hcnt, (splitFirst_eq_none_iff langToken suf).mp hn]
  · intro h
    cases hs : splitFirst langToken tf with
    | none =>
      rw [(splitFirst_eq_none_iff langToken tf).mp hs] at h
      cases h
    | some pr =>
      obtain ⟨pre, post⟩ := pr
      obtain ⟨_, hcnt⟩ := splitFirst_langToken_some hs
      have hz : countOcc langToken post = 0 := by omega
      exact ⟨(pre, post), create_filter_pattern_eq_some.mpr
        ⟨hs, (splitFirst_eq_none_iff langToken post).mpr hz⟩⟩

/-- C3: for every template with exactly one `<lang>` occurrence, compilation
succeeds, and the compiled matcher accepts every substitution of a 2-to-6
character code over letters and underscore (capturing exactly that code)
and rejects every substitution whose code is shorter than 2, longer than 6,
or contains a character outside the class (digits, symbols). -/
theorem c3_matcher_accepts_valid_rejects_invalid (tf : List Char)
    (h : countOcc langToken tf = 1) :
    ∃ pre suf, create_filter_pattern tf = some (pre, suf)
      ∧ (∀ code, 2 ≤ code.length → code.length ≤ 6 → code.all isLangChar = true →
          regexCapture pre suf (replaceLang tf code) = some code)
      ∧ (∀ code, code.length < 2 ∨ 6 < code.length ∨ code.all isLangChar = false →
          regexCapture pre suf (replaceLang tf code) = none) := by
  cases hs : splitFirst langToken tf with
  | none =>
    rw [(splitFirst_eq_none_iff langToken tf).mp hs] at h
    cases h
  | some pr =>
    obtain ⟨pre, suf⟩ := pr
    obtain ⟨_, hcnt⟩ := splitFirst_langToken_some hs
    have hz : countOcc langToken suf = 0 := by omega
    have hrepl : ∀ code, replaceLang tf code = pre ++ code ++ suf := by
      intro code
      unfold replaceLang
      rw [hs]
    refine ⟨pre, suf, create_filter_pattern_eq_some.mpr
      ⟨hs, (splitFirst_eq_none_iff langToken suf).mpr hz⟩, ?_, ?_⟩
    · intro code h2 h6 hall
      rw [hrepl]
      exact regexCapture_subst h2 h6 hall
    · intro code hbad
      rw [hrepl]
      exact regexCapture_subst_invalid hbad

/-- Witness for C3 at the template `foo_<lang>.ts` and code `zh_CN`. -/
theorem c3_witness :
    regexCapture "foo_".data ".ts".data
      (replaceLang "foo_<lang>.ts".data "zh_CN".data) = some "zh_CN".data := by
  obtain ⟨pre, suf, hc, hacc, -⟩ :=
    c3_matcher_accepts_valid_rejects_invalid "foo_<lang>.ts".data (by decide)
  have he : create_filter_pattern "foo_<lang>.ts".data
      = some ("foo_".data, ".ts".data) := by decide
  rw [he] at hc
  cases hc
  exact hacc "zh_CN".data (by decide) (by decide) (by decide)

/-- C8: with the filter's `translation_files_expression` equal to
`app/foo_<lang>.ts` (the filter's `source_file` plays no role in discovery),
scanning a directory whose entries are `foo_en.ts`, `foo_zh_CN.ts` and
`readme.md` yields exactly the pairs (`en`, `foo_en.ts` path) and
(`zh_CN`, `foo_zh_CN.ts` path), in directory order. -/
theorem c8_round_trip_discovery :
    match_target_files "app/foo_<lang>.ts".data "/proj".data
      [DirItem.entry "foo_en.ts".data, DirItem.entry "foo_zh_CN.ts".data,
        DirItem.entry "readme.md".data]
    = .ok [("en".data, "/proj/app/foo_en.ts".data),
        ("zh_CN".data, "/proj/app/foo_zh_CN.ts".data)] := rfl

/-- C1: for every filter rule (position `i`), the translated section's
identifier equals the spec-side first-match scan of the lookup table
(first entry with `repository = github_repository` and
`resource = filter.source`, its `transifex_resource_id` verbatim; the exact
sentinel `o:unknown-org:p:unknown-proj:r:unknown-res` on no match, in
particular on an empty table).  `to_tx_config` is a total function, so the
translation itself never fails. -/
theorem c1_identifier_resolution (y : TransifexYaml) (repo : List Char)
    (table : List TxResourceLookupEntry) (i : Nat) (hi : i < y.filters.length) :
    ∃ hs : i < (to_tx_config y repo table).resource_sections.length,
      ((to_tx_config y repo table).resource_sections.get ⟨i, hs⟩).resource_full_slug
        = specResolveIdentifier repo (y.filters.get ⟨i, hi⟩).source table := by
  have hlen : (to_tx_config y repo table).resource_sections.length = y.filters.length := by
    simp [to_tx_config]
  refine ⟨by rw [hlen]; exact hi, ?_⟩
  simp only [to_tx_config, List.get_eq_getElem, List.getElem_map]
  exact find?_eq_specResolve repo (y.filters[i]).source table

/-- Witness for C1: the spec's example row resolves to `o:x:p:y:r:z`. -/
theorem c1_witness :
    ((to_tx_config exYaml "org/repo".data [exEntry]).resource_sections.get
        ⟨0, by decide⟩).resource_full_slug = "o:x:p:y:r:z".data := by
  obtain ⟨hs, heq⟩ := c1_identifier_resolution exYaml "org/repo".data [exEntry] 0 (by decide)
  rw [show specResolveIdentifier "org/repo".data
      (exYaml.filters.get ⟨0, by decide⟩).source [exEntry] = "o:x:p:y:r:z".data
    from by decide] at heq
  exact heq

/-- C5: translation emits exactly one resource section per filter, in input
order, and each section's source file, source language, type tag and file
filter equal the filter's source path, source language, format tag and
target template verbatim. -/
theorem c5_translate_order_and_fields (y : TransifexYaml) (repo : List Char)
    (table : List TxResourceLookupEntry) :
    (to_tx_config y repo table).resource_sections.length = y.filters.length
    ∧ ∀ i (hi : i < y.filters.length)
        (hs : i < (to_tx_config y repo table).resource_sections.length),
      ((to_tx_config y repo table).resource_sections.get ⟨i, hs⟩).source_file
          = (y.filters.get ⟨i, hi⟩).source
      ∧ ((to_tx_config y repo table).resource_sections.get ⟨i, hs⟩).source_lang
          = (y.filters.get ⟨i, hi⟩).source_lang
      ∧ ((to_tx_config y repo table).resource_sections.get ⟨i, hs⟩).type_attr
          = (y.filters.get ⟨i, hi⟩).format
      ∧ ((to_tx_config y repo table).resource_sections.get ⟨i, hs⟩).file_filter
          = (y.filters.get ⟨i, hi⟩).target_pattern := by
  constructor
  · simp [to_tx_config]
  · intro i hi hs
    simp only [to_tx_config, List.get_eq_getElem, List.getElem_map]
    exact ⟨trivial, trivial, trivial, trivial⟩

/-- Witness for C5 at the one-filter example document. -/
theorem c5_witness :
    ((to_tx_config exYaml "org/repo".data [exEntry]).resource_sections.get
        ⟨0, by decide⟩).source_file = (exYaml.filters.get ⟨0, by decide⟩).source
    ∧ ((to_tx_config exYaml "org/repo".data [exEntry]).resource_sections.get
        ⟨0, by decide⟩).source_lang = (exYaml.filters.get ⟨0, by decide⟩).source_lang
    ∧ ((to_tx_config exYaml "org/repo".data [exEntry]).resource_sections.get
        ⟨0, by decide⟩).type_attr = (exYaml.filters.get ⟨0, by decide⟩).format
    ∧ ((to_tx_config exYaml "org/repo".data [exEntry]).resource_sections.get
        ⟨0, by decide⟩).file_filter = (exYaml.filters.get ⟨0, by decide⟩).target_pattern :=
  (c5_translate_order_and_fields exYaml "org/repo".data [exEntry]).2 0 (by decide) (by decide)

/-- C6: loading tries `<root>/transifex.yaml` first and, when that is not a
file, `<root>/.tx/transifex.yaml`; when neither is a file the result is the
`FileNotFound` kind, and when the first existing candidate reads fine but
fails to deserialize the result is the `Serde` kind, which is distinct from
`FileNotFound`. -/
theorem c6_candidate_order_and_error_kinds (is_file : List Char → Bool)
    (read_to_string : List Char → Except Unit (List Char))
    (from_str : List Char → Except Unit TransifexYaml) (root content : List Char) :
    (is_file (pathJoin root "transifex.yaml".data) = false →
      is_file (pathJoin (pathJoin root ".tx".data) "transifex.yaml".data) = false →
      try_laod_transifex_yaml_file is_file read_to_string from_str root
        = .error .FileNotFound)
    ∧ (is_file (pathJoin root "transifex.yaml".data) = true →
      read_to_string (pathJoin root "transifex.yaml".data) = .ok content →
      from_str content = .error () →
      try_laod_transifex_yaml_file is_file read_to_string from_str root
        = .error .Serde)
    ∧ (is_file (pathJoin root "transifex.yaml".data) = false →
      is_file (pathJoin (pathJoin root ".tx".data) "transifex.yaml".data) = true →
      read_to_string (pathJoin (pathJoin root ".tx".data) "transifex.yaml".data)
        = .ok content →
      from_str content = .error () →
      try_laod_transifex_yaml_file is_file read_to_string from_str root
        = .error .Serde)
    ∧ TxYamlLoadError.Serde ≠ TxYamlLoadError.FileNotFound := by
  refine ⟨?_, ?_, ?_, by intro hx; cases hx⟩
  · intro h1 h2
    simp [try_laod_transifex_yaml_file, h1, h2]
  · intro h1 hr hp
    simp [try_laod_transifex_yaml_file, load_tx_yaml_file, h1, hr, hp]
  · intro h1 h2 hr hp
    simp [try_laod_transifex_yaml_file, load_tx_yaml_file, h1, h2, hr, hp]

/-- Witness for C6: over a filesystem with no files at all, loading from a
project root reports `FileNotFound`. -/
theorem c6_witness :
    try_laod_transifex_yaml_file (fun _ => false) (fun _ => .error ())
      (fun _ => .error ()) "/proj".data = .error .FileNotFound :=
  (c6_candidate_order_and_error_kinds (fun _ => false) (fun _ => .error ())
    (fun _ => .error ()) "/proj".data []).1 rfl rfl

/-- C10: `load_tx_yaml_file` returns the `FileNotFound` kind (never the
`ReadFile` kind) whenever `is_file` is false at the given path; the result
does not depend on `read_to_string` at all — the theorem quantifies over an
arbitrary reader, including one that always fails — so the content is only
consulted after the existence check passes. -/
theorem c10_not_found_before_read (is_file : List Char → Bool)
    (read_to_string : List Char → Except Unit (List Char))
    (from_str : List Char → Except Unit TransifexYaml) (path : List Char)
    (h : is_file path = false) :
    load_tx_yaml_file is_file read_to_string from_str path = .error .FileNotFound
    ∧ TxYamlLoadError.FileNotFound ≠ TxYamlLoadError.ReadFile := by
  refine ⟨?_, by intro hx; cases hx⟩
  simp [load_tx_yaml_file, h]

/-- Witness for C10 at a missing path and an always-failing reader. -/
theorem c10_witness :
    load_tx_yaml_file (fun _ => false) (fun _ => .error ()) (fun _ => .error ())
      "/x/transifex.yaml".data = .error .FileNotFound
    ∧ TxYamlLoadError.FileNotFound ≠ TxYamlLoadError.ReadFile :=
  c10_not_found_before_read (fun _ => false) (fun _ => .error ()) (fun _ => .error ())
    "/x/transifex.yaml".data rfl

/-- C7: for a compiled matcher `(pre, suf)` of template `tf`, the discovery
loop over a listing of readable entries succeeds (zero matches, in
particular an empty directory, is not an error: it yields `[]` because the
returned length is the number of accepted entries), returns exactly as many
pairs as there are accepted names, and every returned language code is the
literal text standing at the placeholder position of its filename
(`name = pre ++ code ++ suf`). -/
theorem c7_discovery_counts (tf pre suf parent : List Char) (listing : List DirItem)
    (hc : create_filter_pattern tf = some (pre, suf))
    (hr : DirItem.unreadable ∉ listing) :
    ∃ pairs, matchEntries pre suf parent listing = .ok pairs
      ∧ pairs.length = listing.countP (itemAccepted pre suf)
      ∧ ∀ cp ∈ pairs, ∃ name, DirItem.entry name ∈ listing
          ∧ name = pre ++ cp.1 ++ suf := by
  obtain ⟨pairs, hok, hlen⟩ := matchEntries_ok_of_no_unreadable pre suf parent listing hr
  refine ⟨pairs, hok, hlen, ?_⟩
  intro cp hcp
  obtain ⟨name, hmem, hcap, -⟩ := matchEntries_ok_mem hok cp hcp
  obtain ⟨hdec, -, -, -⟩ := regexCapture_eq_some hcap
  exact ⟨name, hmem, hdec⟩

/-- Witness for C7: one accepted and one rejected name. -/
theorem c7_witness :
    matchEntries "foo_".data ".ts".data "/proj/app".data
      [DirItem.entry "foo_en.ts".data, DirItem.entry "readme.md".data]
      = .ok [("en".data, "/proj/app/foo_en.ts".data)]
    ∧ ([("en".data, "/proj/app/foo_en.ts".data)]
        : List (List Char × List Char)).length
      = List.countP (itemAccepted "foo_".data ".ts".data)
          [DirItem.entry "foo_en.ts".data, DirItem.entry "readme.md".data] := by
  obtain ⟨pairs, hok, hlen, -⟩ := c7_discovery_counts "foo_<lang>.ts".data "foo_".data
    ".ts".data "/proj/app".data
    [DirItem.entry "foo_en.ts".data, DirItem.entry "readme.md".data]
    (by decide) (by decide)
  have heval : matchEntries "foo_".data ".ts".data "/proj/app".data
      [DirItem.entry "foo_en.ts".data, DirItem.entry "readme.md".data]
      = Except.ok [("en".data, "/proj/app/foo_en.ts".data)] := rfl
  rw [heval] at hok
  cases hok
  exact ⟨heval, hlen⟩

/-- C4 counterexample: the claim says an unreadable directory entry is
silently skipped, so a scan whose listing is a single unreadable entry
would return the empty pair list; the code instead propagates the I/O error
(`let file = file?`), failing the whole scan. -/
theorem c4_counterexample :
    match_target_files "app/foo_<lang>.ts".data "/proj".data [DirItem.unreadable]
        = .error ()
    ∧ match_target_files "app/foo_<lang>.ts".data "/proj".data [DirItem.unreadable]
        ≠ .ok [] := by
  refine ⟨rfl, ?_⟩
  intro h
  rw [show match_target_files "app/foo_<lang>.ts".data "/proj".data [DirItem.unreadable]
      = .error () from rfl] at h
  cases h

/-- C4 (amended): during discovery, an entry whose name is not valid UTF-8
is silently skipped (removing it from the listing does not change the
result), but an unreadable entry is not skipped: whenever the listing
contains one, the whole scan fails with the propagated error. -/
theorem c4_nonutf8_skipped_unreadable_fails (tp root : List Char)
    (l1 l2 listing : List DirItem) (h : DirItem.unreadable ∈ listing) :
    match_target_files tp root (l1 ++ DirItem.nonUtf8 :: l2)
        = match_target_files tp root (l1 ++ l2)
    ∧ match_target_files tp root listing = .error () := by
  constructor
  · simp only [match_target_files]
    split
    · rfl
    · split
      · rfl
      · split
        · rfl
        · exact matchEntries_skip_nonUtf8 _ _ _ l1 l2
  · simp only [match_target_files]
    split
    · rfl
    · split
      · rfl
      · split
        · rfl
        · exact (matchEntries_error_iff _ _ _ listing).mpr h

/-- Witness for the amended C4. -/
theorem c4_witness :
    match_target_files "app/foo_<lang>.ts".data "/proj".data
        ([DirItem.entry "foo_en.ts".data] ++ DirItem.nonUtf8 :: [])
      = match_target_files "app/foo_<lang>.ts".data "/proj".data
        ([DirItem.entry "foo_en.ts".data] ++ [])
    ∧ match_target_files "app/foo_<lang>.ts".data "/proj".data [DirItem.unreadable]
      = .error () :=
  c4_nonutf8_skipped_unreadable_fails "app/foo_<lang>.ts".data "/proj".data
    [DirItem.entry "foo_en.ts".data] [] [DirItem.unreadable] (by decide)

/-- C9: every pair returned by a successful discovery has a language code of
2 to 6 characters drawn from ASCII letters and underscore, and substituting
that code for `<lang>` in the template's filename component yields exactly
the filename component of the returned path. -/
theorem c9_discovered_pair_invariant (tp root : List Char) (listing : List DirItem)
    (pairs : List (List Char × List Char))
    (h : match_target_files tp root listing = .ok pairs) :
    ∀ cp ∈ pairs,
      (2 ≤ cp.1.length ∧ cp.1.length ≤ 6 ∧ cp.1.all isLangChar = true)
      ∧ ∃ tf, fileName (pathJoin root tp) = some tf
          ∧ fileName cp.2 = some (replaceLang tf cp.1) := by
  simp only [match_target_files] at h
  split at h
  · cases h
  · rename_i tf htf
    split at h
    · cases h
    · rename_i pre suf hc
      split at h
      · cases h
      · rename_i parent hp
        intro cp hcp
        obtain ⟨name, hmem, hcap, hpath⟩ := matchEntries_ok_mem h cp hcp
        obtain ⟨hdec, h2, h6, hall⟩ := regexCapture_eq_some hcap
        have hlen2 : 2 ≤ name.length := by
          rw [hdec]
          simp only [List.length_append]
          omega
        obtain ⟨-, htfsl⟩ := fileName_eq_some htf
        obtain ⟨hsp, -⟩ := create_filter_pattern_eq_some.mp hc
        obtain ⟨htfdec, -⟩ := splitFirst_langToken_some hsp
        have hrepl : replaceLang tf cp.1 = pre ++ cp.1 ++ suf := by
          unfold replaceLang
          rw [hsp]
        have hnoslash : ∀ c ∈ name, c ≠ '/' := by
          intro c hcmem
          rw [hdec] at hcmem
          rcases List.mem_append.mp hcmem with hc1 | hcsuf
          · rcases List.mem_append.mp hc1 with hcpre | hccode
            · exact htfsl c (by
                rw [htfdec]
                exact List.mem_append.mpr (Or.inl (List.mem_append.mpr (Or.inl hcpre))))
            · intro hceq
              have hlc := List.all_eq_true.mp hall c hccode
              rw [hceq] at hlc
              exact absurd hlc (by decide)
          · exact htfsl c (by
              rw [htfdec]
              exact List.mem_append.mpr (Or.inr hcsuf))
        have hne : name ≠ [] := by
          intro hn
          rw [hn] at hlen2
          simp at hlen2
        have hnd1 : name ≠ ['.'] := by
          intro hn
          rw [hn] at hlen2
          simp at hlen2
        have hnd2 : name ≠ ['.', '.'] := by
          intro hn
          have hl := congrArg List.length hdec
          rw [hn] at hl
          simp only [List.length_append, List.length_cons, List.length_nil] at hl
          have hp0 : pre = [] := List.length_eq_zero.mp (by omega)
          have hs0 : suf = [] := List.length_eq_zero.mp (by omega)
          rw [hp0, hs0] at hdec
          simp only [List.nil_append, List.append_nil] at hdec
          have hcode : cp.1 = ['.', '.'] := by rw [← hdec, hn]
          rw [hcode] at hall
          exact absurd hall (by decide)
        refine ⟨⟨h2, h6, hall⟩, tf, htf, ?_⟩
        rw [hpath, hrepl, ← hdec]
        exact fileName_parent_append hne hnoslash hnd1 hnd2

/-- Witness for C9 at a concrete successful discovery. -/
theorem c9_witness :
    fileName "/proj/app/foo_en.ts".data
      = some (replaceLang "foo_<lang>.ts".data "en".data) := by
  have h := c9_discovered_pair_invariant "app/foo_<lang>.ts".data "/proj".data
    [DirItem.entry "foo_en.ts".data] [("en".data, "/proj/app/foo_en.ts".data)] rfl
  obtain ⟨-, tf, htf, hfn⟩ :=
    h ("en".data, "/proj/app/foo_en.ts".data) (List.mem_cons_self _ _)
  have htf' : tf = "foo_<lang>.ts".data := by
    rw [show fileName (pathJoin "/proj".data "app/foo_<lang>.ts".data)
        = some "foo_<lang>.ts".data from rfl] at htf
    cases htf
    rfl
  rw [← htf']
  exact hfn

end TxYaml
